import Mathlib

/-! # afero-driver: the FTP storage adapter over an abstract filesystem

A shallow embedding of `fileinfo.go` (package `aferodriver`).

* The backend (`afero.Fs` and the `afero.File` handles it gives out) is not part
  of the package; it is a parameter: a record `Fs σ` of operations over an
  arbitrary backend state `σ`.
* A Go result pair `(value, error)` is a Lean pair whose components are
  `Option`s (`none` is Go's `nil`), so that every combination a Go callee can
  produce is representable.
* Calling a method on a nil interface value is a runtime panic; the outcome of
  an adapter method is therefore `Outcome.returned r` or `Outcome.panicked`.
* Every call that leaves the adapter (backend call, read of the upload stream,
  call of the listing visitor) is appended to `World.trace`.
-/

namespace aferodriver

/-! ## Values exchanged with the environment -/

/-- One byte of file content. -/
abbrev Byte := Nat

/-- A file handle (`afero.File`) handed out by the backend. -/
abbrev Handle := Nat

/-- A Go `error` value, observed through `Error()` and `os.IsNotExist`. -/
structure GoError where
  Error : String
  notExist : Bool
deriving DecidableEq

/-- The function `errors.New` of `github.com/pkg/errors`: a fresh error carrying
the given text; `os.IsNotExist` does not recognise it. -/
def errors.New (message : String) : GoError := { Error := message, notExist := false }

/-- The function `os.IsNotExist`. -/
def os.IsNotExist (err : GoError) : Bool := err.notExist

/-- What `fmt.Sprintln` prints for a string operand followed by an error operand:
the operands separated by a blank, then a newline. -/
def fmt.Sprintln (a : String) (err : GoError) : String := a ++ " " ++ err.Error ++ "\n"

/-- The part of `os.FileInfo` the adapter reads. -/
structure OsFileInfo where
  Name : String
  Size : Int
  IsDir : Bool
deriving DecidableEq

/-- Modelled from the spec: the package's `FileInfo` record, whose declaration is
not in `fileinfo.go`. The spec's Metadata Record has the fields name, size and
isDirectory, in the order of the positional literal `FileInfo{name, size, isDir}`;
`IsDir` is the accessor `ChangeDir` calls on it. -/
structure FileInfo where
  name : String
  size : Int
  isDir : Bool
deriving DecidableEq

/-- Accessor of the metadata record used by `ChangeDir`. -/
def FileInfo.IsDir (f : FileInfo) : Bool := f.isDir

/-- The value of `server.NewSimplePerm(owner, group)`; the adapter never looks inside. -/
structure SimplePerm where
  owner : String
  group : String
deriving DecidableEq

/-- The function `server.NewSimplePerm`. -/
def server.NewSimplePerm (owner group : String) : SimplePerm := { owner := owner, group := group }

/-- Constants of package `os` (their Linux values). -/
def os.SEEK_SET : Nat := 0
/-- Seek relative to the end of the file. -/
def os.SEEK_END : Nat := 2
/-- Open flag: read and write. -/
def os.O_RDWR : Nat := 0x2
/-- Open flag: append on every write. -/
def os.O_APPEND : Nat := 0x400
/-- The permission bits `0777`. -/
def os.ModePerm : Nat := 0o777

/-- The function `filepath.ToSlash`, for a platform whose separator is `Separator`. -/
def filepath.ToSlash (Separator : Char) (path : String) : String :=
  if Separator = '/' then path
  else String.mk (path.data.map fun c => if c = Separator then '/' else c)

/-- The function `strings.TrimPrefix`: `s` without the leading `pre` when `s` starts
with it, `s` itself otherwise. -/
def strings.TrimPrefix (s pre : String) : String :=
  if pre.data.isPrefixOf s.data then String.mk (s.data.drop pre.data.length) else s

/-! ## The backend and the trace of calls -/

/-- The methods of `afero.Fs` and `afero.File` the adapter calls, together with
`afero.ReadDir`, over a backend state `σ`. Queries take the state; commands
return the next state. -/
structure Fs (σ : Type) where
  Stat : σ → String → Option OsFileInfo × Option GoError
  ReadDir : σ → String → List OsFileInfo × Option GoError
  RemoveAll : String → σ → Option GoError × σ
  Remove : String → σ → Option GoError × σ
  Rename : String → String → σ → Option GoError × σ
  Mkdir : String → Nat → σ → Option GoError × σ
  Open : String → σ → (Option Handle × Option GoError) × σ
  Create : String → σ → (Option Handle × Option GoError) × σ
  OpenFile : String → Nat → Nat → σ → (Option Handle × Option GoError) × σ
  FileStat : σ → Handle → Option OsFileInfo × Option GoError
  FileSeek : Handle → Int → Nat → σ → (Int × Option GoError) × σ
  FileWrite : Handle → List Byte → σ → (Int × Option GoError) × σ
  FileClose : Handle → σ → Option GoError × σ

/-- One call leaving the adapter. The three opening calls record the handle they
obtained; `Callback` records what the visitor answered. -/
inductive Call where
  | Stat (path : String)
  | ReadDir (path : String)
  | RemoveAll (path : String)
  | Remove (path : String)
  | Rename (oldname newname : String)
  | Mkdir (path : String) (perm : Nat)
  | Open (path : String) (got : Option Handle)
  | Create (path : String) (got : Option Handle)
  | OpenFile (path : String) (flag perm : Nat) (got : Option Handle)
  | FileStat (f : Handle)
  | FileSeek (f : Handle) (offset : Int) (whence : Nat)
  | FileWrite (f : Handle) (p : List Byte)
  | FileClose (f : Handle)
  | Read
  | Callback (f : FileInfo) (answer : Option GoError)
deriving DecidableEq

/-- The backend state together with the calls made so far. -/
structure World (σ : Type) where
  fs : σ
  trace : List Call

/-- Record a call that leaves the backend state alone. -/
def World.log {σ : Type} (w : World σ) (c : Call) : World σ :=
  { fs := w.fs, trace := w.trace ++ [c] }

/-- Record a call that moved the backend to state `s`. -/
def World.next {σ : Type} (w : World σ) (s : σ) (c : Call) : World σ :=
  { fs := s, trace := w.trace ++ [c] }

/-- How a Go function ends: it returns, or it panics (nil dereference). -/
inductive Outcome (α : Type) where
  | returned (r : α)
  | panicked
deriving DecidableEq

/-! ## The adapter -/

/-- The struct `AferoDriver`. -/
structure AferoDriver (σ : Type) where
  aferoFS : Fs σ
  curDir : String
  Perm : SimplePerm

/-- The method `AferoDriver.Init`: does nothing. -/
def AferoDriver.Init {σ : Type} (_driver : AferoDriver σ) (w : World σ) : World σ := w

/-- The method `AferoDriver.Stat`. -/
def AferoDriver.Stat {σ : Type} (driver : AferoDriver σ) (Separator : Char) (path : String)
    (w : World σ) : Outcome (Option FileInfo × Option GoError) × World σ :=
  let path := filepath.ToSlash Separator path
  let r := driver.aferoFS.Stat w.fs path
  let w := w.log (Call.Stat path)
  match r.2 with
  | some _ =>
    let path := strings.TrimPrefix path "/"
    let r := driver.aferoFS.Stat w.fs path
    let w := w.log (Call.Stat path)
    match r.2 with
    | none =>
      match r.1 with
      | some f => (Outcome.returned (some { name := f.Name, size := f.Size, isDir := f.IsDir }, r.2), w)
      | none => (Outcome.panicked, w)
    | some _ => (Outcome.returned (none, r.2), w)
  | none =>
    match r.1 with
    | some f => (Outcome.returned (some { name := f.Name, size := f.Size, isDir := f.IsDir }, r.2), w)
    | none => (Outcome.panicked, w)

/-- The method `AferoDriver.ChangeDir`; it returns the error and the updated receiver. -/
def AferoDriver.ChangeDir {σ : Type} (driver : AferoDriver σ) (Separator : Char) (path : String)
    (w : World σ) : Outcome (Option GoError) × AferoDriver σ × World σ :=
  let r := driver.Stat Separator path w
  match r.1 with
  | Outcome.panicked => (Outcome.panicked, driver, r.2)
  | Outcome.returned (_, some err) => (Outcome.returned (some err), driver, r.2)
  | Outcome.returned (none, none) => (Outcome.panicked, driver, r.2)
  | Outcome.returned (some f, none) =>
    if !f.IsDir then (Outcome.returned (some (errors.New "not a dir")), driver, r.2)
    else (Outcome.returned none, { driver with curDir := path }, r.2)

/-- The loop of `AferoDriver.ListDir` over the entries still to visit; `c` is the
visitor's own state. -/
def AferoDriver.ListDir.loop {σ τ : Type} (callback : τ → FileInfo → Option GoError × τ) :
    List OsFileInfo → τ → World σ → Option GoError × τ × World σ
  | [], c, w => (none, c, w)
  | entry :: entries, c, w =>
    let f : FileInfo := { name := entry.Name, size := entry.Size, isDir := entry.IsDir }
    let r := callback c f
    let w := w.log (Call.Callback f r.1)
    match r.1 with
    | some err => (some err, r.2, w)
    | none => AferoDriver.ListDir.loop callback entries r.2 w

/-- The method `AferoDriver.ListDir`. The error of `afero.ReadDir` is assigned
and never read. -/
def AferoDriver.ListDir {σ τ : Type} (driver : AferoDriver σ) (path : String)
    (callback : τ → FileInfo → Option GoError × τ) (c : τ) (w : World σ) :
    Option GoError × τ × World σ :=
  let r := driver.aferoFS.ReadDir w.fs path
  let w := w.log (Call.ReadDir path)
  AferoDriver.ListDir.loop callback r.1 c w

/-- The method `AferoDriver.DeleteDir`. -/
def AferoDriver.DeleteDir {σ : Type} (driver : AferoDriver σ) (path : String) (w : World σ) :
    Option GoError × World σ :=
  let r := driver.aferoFS.RemoveAll path w.fs
  (r.1, w.next r.2 (Call.RemoveAll path))

/-- The method `AferoDriver.DeleteFile`. -/
def AferoDriver.DeleteFile {σ : Type} (driver : AferoDriver σ) (path : String) (w : World σ) :
    Option GoError × World σ :=
  let r := driver.aferoFS.Remove path w.fs
  (r.1, w.next r.2 (Call.Remove path))

/-- The method `AferoDriver.Rename`. -/
def AferoDriver.Rename {σ : Type} (driver : AferoDriver σ) (Separator : Char)
    (fromPath toPath : String) (w : World σ) : Option GoError × World σ :=
  let fromPath := filepath.ToSlash Separator fromPath
  let r := driver.aferoFS.Stat w.fs toPath
  let w := w.log (Call.Stat toPath)
  match r.2 with
  | none => (some (errors.New "file already exists"), w)
  | some _ =>
    let r := driver.aferoFS.Rename fromPath toPath w.fs
    let w := w.next r.2 (Call.Rename fromPath toPath)
    match r.1 with
    | some _ =>
      let fromPath := strings.TrimPrefix fromPath "/"
      let r := driver.aferoFS.Rename fromPath toPath w.fs
      (r.1, w.next r.2 (Call.Rename fromPath toPath))
    | none => (r.1, w)

/-- The method `AferoDriver.MakeDir`. -/
def AferoDriver.MakeDir {σ : Type} (driver : AferoDriver σ) (path : String) (w : World σ) :
    Option GoError × World σ :=
  let r := driver.aferoFS.Mkdir path os.ModePerm w.fs
  (r.1, w.next r.2 (Call.Mkdir path os.ModePerm))

/-! ## Upload stream and `io.Copy` -/

/-- The error half of one `Read` result: `io.EOF`, or a failure. -/
inductive ReadErr where
  | EOF
  | failure (err : GoError)
deriving DecidableEq

/-- What one call of `Read` on the upload stream delivers: the bytes put in the
buffer (`n` is their number) and the error returned with them. -/
structure ReadResult where
  p : List Byte
  err : Option ReadErr
deriving DecidableEq

/-- An `io.Reader` as the script of its successive `Read` results; once the
script is used up, `Read` returns `(0, io.EOF)`. -/
abbrev Reader := List ReadResult

/-- The error `io.ErrShortWrite`. -/
def io.ErrShortWrite : GoError := errors.New "short write"

/-- The error `io.Copy` reports when `Write` returns an impossible count. -/
def io.errInvalidWrite : GoError := errors.New "invalid write result"

/-- The body of `io.Copy` that follows a `Read` of `nr > 0` bytes: write them,
add the count and say whether the loop breaks (with which error). -/
def io.Copy.write {σ : Type} (B : Fs σ) (dst : Handle) (buf : List Byte) (written : Int)
    (w : World σ) : (Int × Option GoError) × World σ :=
  let nr : Int := buf.length
  let wr := B.FileWrite dst buf w.fs
  let w := w.next wr.2 (Call.FileWrite dst buf)
  let invalid : Bool := decide (wr.1.1 < 0 ∨ nr < wr.1.1)
  let nw : Int := if invalid then 0 else wr.1.1
  let ew : Option GoError :=
    if invalid then (match wr.1.2 with
      | none => some io.errInvalidWrite
      | some e => some e)
    else wr.1.2
  let written := written + nw
  match ew with
  | some e => ((written, some e), w)
  | none => if nr ≠ nw then ((written, some io.ErrShortWrite), w) else ((written, none), w)

/-- The function `io.Copy(dst, src)` of the Go library (its generic loop), from
`written` bytes already copied. -/
def io.Copy {σ : Type} (B : Fs σ) (dst : Handle) :
    Reader → Int → World σ → (Int × Option GoError) × World σ
  | [], written, w => ((written, none), w.log Call.Read)
  | r :: src, written, w =>
    let w := w.log Call.Read
    let wr := if 0 < r.p.length then io.Copy.write B dst r.p written w else ((written, none), w)
    match wr.1.2 with
    | some e => ((wr.1.1, some e), wr.2)
    | none =>
      match r.err with
      | some ReadErr.EOF => ((wr.1.1, none), wr.2)
      | some (ReadErr.failure e) => ((wr.1.1, some e), wr.2)
      | none => io.Copy B dst src wr.1.1 wr.2

/-! ## Download and upload -/

/-- The handle a Go pair `(file, err)` gives its receiver: none when `err` is set. -/
def obtained (r : Option Handle × Option GoError) : Option Handle :=
  match r.2 with
  | none => r.1
  | some _ => none

/-- The method `AferoDriver.GetFile`; the stream it returns is the open handle. -/
def AferoDriver.GetFile {σ : Type} (driver : AferoDriver σ) (path : String) (offset : Int)
    (w : World σ) : Outcome (Int × Option Handle × Option GoError) × World σ :=
  let r := driver.aferoFS.Open path w.fs
  let w := w.next r.2 (Call.Open path (obtained r.1))
  match r.1.2 with
  | some err => (Outcome.returned (0, none, some err), w)
  | none =>
    match r.1.1 with
    | none => (Outcome.panicked, w)
    | some f =>
      let i := driver.aferoFS.FileStat w.fs f
      let w := w.log (Call.FileStat f)
      match i.2 with
      | some err => (Outcome.returned (0, none, some err), w)
      | none =>
        let s := driver.aferoFS.FileSeek f offset os.SEEK_SET w.fs
        let w := w.next s.2 (Call.FileSeek f offset os.SEEK_SET)
        match i.1 with
        | none => (Outcome.panicked, w)
        | some info => (Outcome.returned (info.Size, some f, none), w)

/-- The effect of `defer f.Close()`: the handle is closed once the result is fixed. -/
def deferClose {σ α : Type} (B : Fs σ) (f : Handle) (r : α × World σ) : α × World σ :=
  (r.1, r.2.next (B.FileClose f r.2.fs).2 (Call.FileClose f))

/-- The first block of `AferoDriver.PutFile`: from the answer of `Stat`, either
the early return or the value of `isExist`. -/
def AferoDriver.PutFile.probe (st : Option OsFileInfo × Option GoError) :
    Except (Int × Option GoError) Bool :=
  match st.2 with
  | none =>
    match st.1 with
    | some f =>
      if f.IsDir then Except.error (0, some (errors.New "A dir has the same name"))
      else Except.ok true
    | none => Except.ok false
  | some err =>
    if os.IsNotExist err then Except.ok false
    else Except.error (0, some (errors.New (fmt.Sprintln "Put File error:" err)))

/-- The method `AferoDriver.PutFile`. -/
def AferoDriver.PutFile {σ : Type} (driver : AferoDriver σ) (destPath : String) (data : Reader)
    (appendData : Bool) (w : World σ) : Outcome (Int × Option GoError) × World σ :=
  let st := driver.aferoFS.Stat w.fs destPath
  let w := w.log (Call.Stat destPath)
  match AferoDriver.PutFile.probe st with
  | Except.error res => (Outcome.returned res, w)
  | Except.ok isExist =>
    let appendData := if appendData && !isExist then false else appendData
    if !appendData then
      let rm : Option GoError × World σ :=
        if isExist then
          let r := driver.aferoFS.Remove destPath w.fs
          (r.1, w.next r.2 (Call.Remove destPath))
        else (none, w)
      match rm.1 with
      | some err => (Outcome.returned (0, some err), rm.2)
      | none =>
        let w := rm.2
        let cr := driver.aferoFS.Create destPath w.fs
        let w := w.next cr.2 (Call.Create destPath (obtained cr.1))
        match cr.1.2 with
        | some err => (Outcome.returned (0, some err), w)
        | none =>
          match cr.1.1 with
          | none => (Outcome.panicked, w)
          | some f =>
            deferClose driver.aferoFS f
              (let cp := io.Copy driver.aferoFS f data 0 w
               match cp.1.2 with
               | some err => (Outcome.returned (0, some err), cp.2)
               | none => (Outcome.returned (cp.1.1, none), cp.2))
    else
      let op := driver.aferoFS.OpenFile destPath (os.O_APPEND ||| os.O_RDWR) 0o660 w.fs
      let w := w.next op.2 (Call.OpenFile destPath (os.O_APPEND ||| os.O_RDWR) 0o660 (obtained op.1))
      match op.1.2 with
      | some err => (Outcome.returned (0, some err), w)
      | none =>
        match op.1.1 with
        | none => (Outcome.panicked, w)
        | some f =>
          deferClose driver.aferoFS f
            (let sk := driver.aferoFS.FileSeek f 0 os.SEEK_END w.fs
             let w := w.next sk.2 (Call.FileSeek f 0 os.SEEK_END)
             match sk.1.2 with
             | some err => (Outcome.returned (0, some err), w)
             | none =>
               let cp := io.Copy driver.aferoFS f data 0 w
               match cp.1.2 with
               | some err => (Outcome.returned (0, some err), cp.2)
               | none => (Outcome.returned (cp.1.1, none), cp.2))

/-- The struct `AferoDriverFactory`. -/
structure AferoDriverFactory (σ : Type) where
  AferoFs : Fs σ

/-- The method `AferoDriverFactory.NewDriver`. -/
def AferoDriverFactory.NewDriver {σ : Type} (factory : AferoDriverFactory σ) :
    AferoDriver σ × Option GoError :=
  ({ aferoFS := factory.AferoFs, curDir := "/", Perm := server.NewSimplePerm "test" "test" }, none)

/-! ## Reading a trace -/

/-- The handle a call obtained from the backend, if any. -/
def Call.obtains : Call → Option Handle
  | Call.Open _ got => got
  | Call.Create _ got => got
  | Call.OpenFile _ _ _ got => got
  | _ => none

/-- The handles a trace obtained and did not close afterwards. -/
def unclosed : List Call → List Handle
  | [] => []
  | c :: rest =>
    match c.obtains with
    | some h => if Call.FileClose h ∈ rest then unclosed rest else h :: unclosed rest
    | none => unclosed rest

/-- The paths on which a trace called the backend's `Stat`, in order. -/
def statCalls : List Call → List String
  | [] => []
  | Call.Stat p :: rest => p :: statCalls rest
  | _ :: rest => statCalls rest

/-! ## What a backend stores, and a reference backend -/

/-- The bytes delivered by an upload stream: those of its reads up to and
including the first read that carries an error. -/
def Reader.bytes : Reader → List Byte
  | [] => []
  | r :: rest =>
    r.p ++ (match r.err with
      | none => Reader.bytes rest
      | some _ => [])

/-- A reading of a backend state: the bytes of the regular file stored under a
name, and for an open handle the name it is open on and its offset. -/
structure View (σ : Type) where
  content : σ → String → Option (List Byte)
  cursor : σ → Handle → Option (String × Nat)

/-- The bytes an open handle has still to deliver: the content from its offset on. -/
def View.pending {σ : Type} (V : View σ) (s : σ) (h : Handle) : Option (List Byte) :=
  match V.cursor s h with
  | none => none
  | some (name, pos) =>
    match V.content s name with
    | none => none
    | some c => some (c.drop pos)

/-- The backend behaves as a store of files under the reading `V`: what its file
operations do to content and offsets whenever they succeed. -/
structure Regular {σ : Type} (B : Fs σ) (V : View σ) : Prop where
  create : ∀ s p h s1, B.Create p s = ((some h, none), s1) →
    V.content s1 p = some [] ∧ V.cursor s1 h = some (p, 0)
  openAppend : ∀ s p perm h s1 c, B.OpenFile p (os.O_APPEND ||| os.O_RDWR) perm s = ((some h, none), s1) →
    V.content s p = some c → V.content s1 p = some c ∧ ∃ pos, V.cursor s1 h = some (p, pos)
  openRead : ∀ s p h s1 c, B.Open p s = ((some h, none), s1) →
    V.content s p = some c → V.content s1 p = some c ∧ V.cursor s1 h = some (p, 0)
  fileStat : ∀ s h p pos c info, V.cursor s h = some (p, pos) → V.content s p = some c →
    B.FileStat s h = (some info, none) → info.Size = c.length
  seekStart : ∀ s h p pos c offset n s1, V.cursor s h = some (p, pos) → V.content s p = some c →
    B.FileSeek h offset os.SEEK_SET s = ((n, none), s1) → 0 ≤ offset →
    V.content s1 p = some c ∧ V.cursor s1 h = some (p, offset.toNat)
  seekEnd : ∀ s h p pos c n s1, V.cursor s h = some (p, pos) → V.content s p = some c →
    B.FileSeek h 0 os.SEEK_END s = ((n, none), s1) →
    V.content s1 p = some c ∧ V.cursor s1 h = some (p, c.length)
  writeAtEnd : ∀ s h p c buf s1, V.cursor s h = some (p, c.length) → V.content s p = some c →
    B.FileWrite h buf s = (((buf.length : Int), none), s1) →
    V.content s1 p = some (c ++ buf) ∧ V.cursor s1 h = some (p, c.length + buf.length)
  close : ∀ s h s1 r p, B.FileClose h s = (r, s1) → V.content s1 p = V.content s p

/-- Value stored under a key of an association list. -/
def lookup {κ α : Type} [DecidableEq κ] (k : κ) : List (κ × α) → Option α
  | [] => none
  | (k1, v) :: rest => if k1 = k then some v else lookup k rest

/-- Store a value under a key, replacing the one there. -/
def store {κ α : Type} [DecidableEq κ] (k : κ) (v : α) : List (κ × α) → List (κ × α)
  | [] => [(k, v)]
  | (k1, v1) :: rest => if k1 = k then (k, v) :: rest else (k1, v1) :: store k v rest

/-- Drop a key. -/
def discard {κ α : Type} [DecidableEq κ] (k : κ) (l : List (κ × α)) : List (κ × α) :=
  l.filter fun e => decide (e.1 ≠ k)

/-- An entry of the in-memory store. -/
inductive Node where
  | file (bytes : List Byte)
  | dir
deriving DecidableEq

/-- The in-memory store: entries by name, open handles with their name and
offset, the next handle to give out, and a device fault that makes `Stat` on an
open handle fail. -/
structure MemFs where
  nodes : List (String × Node)
  fds : List (Handle × String × Nat)
  nextFd : Handle
  fault : Option GoError
deriving DecidableEq

/-- Final component of a name. -/
def baseName (path : String) : String :=
  String.mk (path.data.reverse.takeWhile fun c => decide (c ≠ '/')).reverse

/-- The directory a name lies in. -/
def dirName (path : String) : String :=
  let d := ((path.data.reverse.dropWhile fun c => decide (c ≠ '/')).drop 1).reverse
  if d = [] then "/" else String.mk d

/-- The `os.FileInfo` of an entry. -/
def nodeInfo (path : String) : Node → OsFileInfo
  | Node.file bytes => { Name := baseName path, Size := bytes.length, IsDir := false }
  | Node.dir => { Name := baseName path, Size := 0, IsDir := true }

/-- The error of a missing entry (`os.ErrNotExist`). -/
def ErrNotExist : GoError := { Error := "file does not exist", notExist := true }

/-- The error of using a handle that is not open. -/
def ErrClosed : GoError := { Error := "file already closed", notExist := false }

/-- The error of an operation on the wrong kind of entry. -/
def ErrInvalid : GoError := { Error := "invalid argument", notExist := false }

/-- The error of creating over an entry. -/
def ErrExist : GoError := { Error := "file already exists", notExist := false }

/-- Open an entry of the store at offset 0. -/
def MemFs.openAt (path : String) (s : MemFs) : (Option Handle × Option GoError) × MemFs :=
  match lookup path s.nodes with
  | none => ((none, some ErrNotExist), s)
  | some _ =>
    ((some s.nextFd, none),
      { s with fds := store s.nextFd (path, 0) s.fds, nextFd := s.nextFd + 1 })

/-- The in-memory store as a backend. -/
def memFs : Fs MemFs where
  Stat s path :=
    match lookup path s.nodes with
    | none => (none, some ErrNotExist)
    | some n => (some (nodeInfo path n), none)
  ReadDir s path :=
    match lookup path s.nodes with
    | some Node.dir =>
      (((s.nodes.filter fun e => decide (dirName e.1 = path ∧ e.1 ≠ path)).map
        fun e => nodeInfo e.1 e.2), none)
    | some (Node.file _) => ([], some ErrInvalid)
    | none => ([], some ErrNotExist)
  RemoveAll path s :=
    let kept := s.nodes.filter fun e =>
      decide (e.1 ≠ path) && not ((path.data ++ ['/']).isPrefixOf e.1.data)
    (none, { s with nodes := kept })
  Remove path s :=
    match lookup path s.nodes with
    | none => (some ErrNotExist, s)
    | some _ => (none, { s with nodes := discard path s.nodes })
  Rename oldname newname s :=
    match lookup oldname s.nodes with
    | none => (some ErrNotExist, s)
    | some n => (none, { s with nodes := store newname n (discard oldname s.nodes) })
  Mkdir path _ s :=
    match lookup path s.nodes with
    | some _ => (some ErrExist, s)
    | none => (none, { s with nodes := store path Node.dir s.nodes })
  Open path s := MemFs.openAt path s
  Create path s :=
    match lookup path s.nodes with
    | some Node.dir => ((none, some ErrInvalid), s)
    | _ =>
      ((some s.nextFd, none),
        { s with nodes := store path (Node.file []) s.nodes,
                 fds := store s.nextFd (path, 0) s.fds, nextFd := s.nextFd + 1 })
  OpenFile path _ _ s := MemFs.openAt path s
  FileStat s h :=
    match s.fault with
    | some e => (none, some e)
    | none =>
      match lookup h s.fds with
      | none => (none, some ErrClosed)
      | some (path, _) =>
        match lookup path s.nodes with
        | none => (none, some ErrNotExist)
        | some n => (some (nodeInfo path n), none)
  FileSeek h offset whence s :=
    match lookup h s.fds with
    | none => ((0, some ErrClosed), s)
    | some (path, pos) =>
      match lookup path s.nodes with
      | some (Node.file bytes) =>
        let target : Int :=
          if whence = os.SEEK_SET then offset
          else if whence = os.SEEK_END then bytes.length + offset
          else pos + offset
        if target < 0 then ((0, some ErrInvalid), s)
        else ((target, none), { s with fds := store h (path, target.toNat) s.fds })
      | _ => ((0, some ErrInvalid), s)
  FileWrite h buf s :=
    match lookup h s.fds with
    | none => ((0, some ErrClosed), s)
    | some (path, pos) =>
      match lookup path s.nodes with
      | some (Node.file bytes) =>
        let after := bytes.take pos ++ List.replicate (pos - bytes.length) 0 ++ buf
          ++ bytes.drop (pos + buf.length)
        ((buf.length, none),
          { s with nodes := store path (Node.file after) s.nodes,
                   fds := store h (path, pos + buf.length) s.fds })
      | _ => ((0, some ErrInvalid), s)
  FileClose h s :=
    match lookup h s.fds with
    | none => (some ErrClosed, s)
    | some _ => (none, { s with fds := discard h s.fds })

/-- The reading of the in-memory store. -/
def memView : View MemFs where
  content s path :=
    match lookup path s.nodes with
    | some (Node.file bytes) => some bytes
    | _ => none
  cursor s h := lookup h s.fds

/-- A store holding `/a`, `/a/b.txt` ("hello"), `/a/c`, `/a/d` and `/x.txt`,
nothing open. -/
def sampleFs : MemFs :=
  { nodes := [("/", Node.dir), ("/a", Node.dir), ("/a/b.txt", Node.file [104, 101, 108, 108, 111]),
              ("/a/c", Node.dir), ("/a/d", Node.file [9]), ("/x.txt", Node.file [1, 2, 3])],
    fds := [], nextFd := 3, fault := none }

/-- An adapter over the in-memory store, as the factory makes it. -/
def sampleDriver : AferoDriver MemFs :=
  (AferoDriverFactory.NewDriver { AferoFs := memFs }).1

/-- The sample store with an empty trace. -/
def sampleWorld : World MemFs := { fs := sampleFs, trace := [] }

/-- A store that keeps its entries without the leading slash. -/
def bareFs : MemFs :=
  { nodes := [("pub", Node.dir), ("pub/readme", Node.file [1, 2])],
    fds := [], nextFd := 3, fault := none }

/-- The metadata record the adapter builds from a backend entry. -/
def metadata (entry : OsFileInfo) : FileInfo :=
  { name := entry.Name, size := entry.Size, isDir := entry.IsDir }

/-- What a visitor starting in state `c` answers when it is handed the records
one after another, all of them. -/
def answers {τ : Type} (callback : τ → FileInfo → Option GoError × τ) :
    τ → List FileInfo → List (Option GoError)
  | _, [] => []
  | c, f :: rest => (callback c f).1 :: answers callback (callback c f).2 rest

/-- The visitor calls on the first `k` records, as trace entries. -/
def visits {τ : Type} (callback : τ → FileInfo → Option GoError × τ) (c : τ)
    (records : List FileInfo) (k : Nat) : List Call :=
  ((records.zip (answers callback c records)).take k).map fun x => Call.Callback x.1 x.2

/-- A visitor that counts its calls and fails on the one numbered `n` (from 0). -/
def failAt (n : Nat) (c : Nat) (_f : FileInfo) : Option GoError × Nat :=
  (if c = n then some (errors.New "stop") else none, c + 1)

/-- The listing of `/a` in the sample store. -/
def sampleListing : List OsFileInfo :=
  [{ Name := "b.txt", Size := 5, IsDir := false }, { Name := "c", Size := 0, IsDir := true },
   { Name := "d", Size := 1, IsDir := false }]

/-- The sample store with a failing device: `Stat` on an open handle reports an
I/O error. -/
def faultyFs : MemFs :=
  { sampleFs with fault := some { Error := "input/output error", notExist := false } }

/-- An upload stream delivering 7, 8 and then 9 together with the end of file. -/
def sampleData : Reader :=
  [{ p := [7, 8], err := none }, { p := [9], err := some ReadErr.EOF }]

/-- A backend like `B` whose handles cannot seek: every `Seek` fails with `e` and
leaves the state as it is. -/
def withoutSeek {σ : Type} (B : Fs σ) (e : GoError) : Fs σ :=
  { B with FileSeek := fun _ _ _ s => ((0, some e), s) }

/-- The error of seeking on something that cannot seek. -/
def ErrSeek : GoError := { Error := "illegal seek", notExist := false }

/-- An adapter over the in-memory store with seeking taken away. -/
def unseekableDriver : AferoDriver MemFs :=
  (AferoDriverFactory.NewDriver { AferoFs := withoutSeek memFs ErrSeek }).1

/-! ## Rename onto an existing destination -/

/-- C1: when the backend's `Stat` of the destination succeeds, `Rename` returns the
"file already exists" error whatever the source path is; its only backend call is
that `Stat`, so no `Rename` is issued and the backend state is untouched. -/
theorem Rename_existing_destination {σ : Type} (driver : AferoDriver σ) (Separator : Char)
    (fromPath toPath : String) (w : World σ)
    (hExists : (driver.aferoFS.Stat w.fs toPath).2 = none) :
    (driver.Rename Separator fromPath toPath w).1 = some (errors.New "file already exists") ∧
    (driver.Rename Separator fromPath toPath w).2.fs = w.fs ∧
    (driver.Rename Separator fromPath toPath w).2.trace = w.trace ++ [Call.Stat toPath] := by
  simp [AferoDriver.Rename, hExists, World.log]

/-- C1 at the sample store: renaming a missing `/nope` onto the existing `/x.txt`. -/
theorem Rename_existing_destination_witness :
    (sampleDriver.aferoFS.Stat sampleWorld.fs "/x.txt").2 = none ∧
    (sampleDriver.Rename '/' "/nope" "/x.txt" sampleWorld).1
      = some (errors.New "file already exists") ∧
    (sampleDriver.Rename '/' "/nope" "/x.txt" sampleWorld).2.fs = sampleWorld.fs ∧
    (sampleDriver.Rename '/' "/nope" "/x.txt" sampleWorld).2.trace
      = sampleWorld.trace ++ [Call.Stat "/x.txt"] :=
  ⟨by decide, Rename_existing_destination sampleDriver '/' "/nope" "/x.txt" sampleWorld (by decide)⟩

/-! ## Upload onto a directory -/

/-- C2: when the backend's `Stat` of the destination succeeds and reports a
directory, `PutFile` returns `(0, "A dir has the same name")` for either value of
the append flag; its only call is that `Stat` (no `Remove`, `Create`, `OpenFile`,
no read of the data), and the backend state is untouched. -/
theorem PutFile_onto_directory {σ : Type} (driver : AferoDriver σ) (destPath : String)
    (data : Reader) (appendData : Bool) (w : World σ) (f : OsFileInfo)
    (hStat : driver.aferoFS.Stat w.fs destPath = (some f, none)) (hDir : f.IsDir = true) :
    (driver.PutFile destPath data appendData w).1
      = Outcome.returned (0, some (errors.New "A dir has the same name")) ∧
    (driver.PutFile destPath data appendData w).2.fs = w.fs ∧
    (driver.PutFile destPath data appendData w).2.trace = w.trace ++ [Call.Stat destPath] := by
  simp [AferoDriver.PutFile, AferoDriver.PutFile.probe, hStat, hDir, World.log]

/-- C2 at the sample store: appending to the directory `/a`. -/
theorem PutFile_onto_directory_witness :
    sampleDriver.aferoFS.Stat sampleWorld.fs "/a" = (some (nodeInfo "/a" Node.dir), none) ∧
    (nodeInfo "/a" Node.dir).IsDir = true ∧
    (sampleDriver.PutFile "/a" [{ p := [1], err := none }] true sampleWorld).1
      = Outcome.returned (0, some (errors.New "A dir has the same name")) ∧
    (sampleDriver.PutFile "/a" [{ p := [1], err := none }] true sampleWorld).2.fs
      = sampleWorld.fs ∧
    (sampleDriver.PutFile "/a" [{ p := [1], err := none }] true sampleWorld).2.trace
      = sampleWorld.trace ++ [Call.Stat "/a"] :=
  ⟨by decide, by decide,
    PutFile_onto_directory sampleDriver "/a" [{ p := [1], err := none }] true sampleWorld
      (nodeInfo "/a" Node.dir) (by decide) (by decide)⟩

/-! ## Stat: one lookup, one retry -/

/-- What `strings.TrimPrefix s "/"` is: `s` minus its first character when that
is a slash (one slash only), `s` itself otherwise. -/
theorem TrimPrefix_slash (s : String) :
    (∃ rest, s.data = '/' :: rest ∧ strings.TrimPrefix s "/" = String.mk rest) ∨
    (s.data.head? ≠ some '/' ∧ strings.TrimPrefix s "/" = s) := by
  obtain ⟨l⟩ := s
  cases l with
  | nil => right; simp [strings.TrimPrefix, List.isPrefixOf]
  | cons c rest =>
    by_cases hc : c = '/'
    · left; subst hc; exact ⟨rest, rfl, by simp [strings.TrimPrefix, List.isPrefixOf]⟩
    · right
      have hc2 : ¬ ('/' = c) := fun h => hc h.symm
      simp [strings.TrimPrefix, List.isPrefixOf, hc, hc2]

/-- The `Stat` calls of a trace extended at its end. -/
theorem statCalls_append (t u : List Call) : statCalls (t ++ u) = statCalls t ++ statCalls u := by
  induction t with
  | nil => rfl
  | cons c rest ih => cases c <;> simp [statCalls, ih]

/-- C6: `Stat` first asks the backend about the separator-normalized path and, only
when that fails, once more about that path without one leading slash; these one
or two calls are all it makes and the backend state is untouched. A successful first lookup is
returned without retry; a failed first and successful second lookup returns the
second's metadata with a nil error; when both fail the result is no metadata and
the second lookup's error. -/
theorem Stat_lookup_and_retry {σ : Type} (driver : AferoDriver σ) (Separator : Char)
    (path : String) (w : World σ) :
    (driver.Stat Separator path w).2.fs = w.fs ∧
    ((statCalls (driver.Stat Separator path w).2.trace).length
        ≤ (statCalls w.trace).length + 2 ∧
      (((driver.aferoFS.Stat w.fs (filepath.ToSlash Separator path)).2 = none ∧
          (driver.Stat Separator path w).2.trace
            = w.trace ++ [Call.Stat (filepath.ToSlash Separator path)]) ∨
        ((driver.aferoFS.Stat w.fs (filepath.ToSlash Separator path)).2 ≠ none ∧
          (driver.Stat Separator path w).2.trace
            = w.trace ++ [Call.Stat (filepath.ToSlash Separator path),
                Call.Stat (strings.TrimPrefix (filepath.ToSlash Separator path) "/")]))) ∧
    (∀ f, driver.aferoFS.Stat w.fs (filepath.ToSlash Separator path) = (some f, none) →
      (driver.Stat Separator path w).1
        = Outcome.returned (some { name := f.Name, size := f.Size, isDir := f.IsDir }, none) ∧
      (driver.Stat Separator path w).2.trace
        = w.trace ++ [Call.Stat (filepath.ToSlash Separator path)]) ∧
    (∀ x e f, driver.aferoFS.Stat w.fs (filepath.ToSlash Separator path) = (x, some e) →
      driver.aferoFS.Stat w.fs (strings.TrimPrefix (filepath.ToSlash Separator path) "/")
        = (some f, none) →
      (driver.Stat Separator path w).1
        = Outcome.returned (some { name := f.Name, size := f.Size, isDir := f.IsDir }, none) ∧
      (driver.Stat Separator path w).2.trace
        = w.trace ++ [Call.Stat (filepath.ToSlash Separator path),
            Call.Stat (strings.TrimPrefix (filepath.ToSlash Separator path) "/")]) ∧
    (∀ x e y e2, driver.aferoFS.Stat w.fs (filepath.ToSlash Separator path) = (x, some e) →
      driver.aferoFS.Stat w.fs (strings.TrimPrefix (filepath.ToSlash Separator path) "/")
        = (y, some e2) →
      (driver.Stat Separator path w).1 = Outcome.returned (none, some e2) ∧
      (driver.Stat Separator path w).2.trace
        = w.trace ++ [Call.Stat (filepath.ToSlash Separator path),
            Call.Stat (strings.TrimPrefix (filepath.ToSlash Separator path) "/")]) := by
  refine ⟨?_, ?_, ?_, ?_, ?_⟩
  · unfold AferoDriver.Stat
    simp only [World.log]
    repeat' split
    all_goals rfl
  · refine ⟨?_, ?_⟩
    · unfold AferoDriver.Stat
      simp only [World.log]
      repeat' split
      all_goals simp [statCalls_append, statCalls]
    · cases h1 : (driver.aferoFS.Stat w.fs (filepath.ToSlash Separator path)).2 with
      | none =>
        left
        refine ⟨rfl, ?_⟩
        unfold AferoDriver.Stat
        simp only [World.log, h1]
        split <;> rfl
      | some e =>
        right
        refine ⟨by simp, ?_⟩
        unfold AferoDriver.Stat
        simp only [World.log, h1]
        repeat' split
        all_goals simp
  · intro f h
    simp [AferoDriver.Stat, h, World.log]
  · intro x e f h1 h2
    simp [AferoDriver.Stat, h1, h2, World.log]
  · intro x e y e2 h1 h2
    simp [AferoDriver.Stat, h1, h2, World.log]

/-- C6 at concrete stores: a direct hit, a hit on the retry, and a double miss. -/
theorem Stat_lookup_and_retry_witness :
    ((sampleDriver.Stat '/' "/a/b.txt" sampleWorld).1
        = Outcome.returned (some { name := "b.txt", size := 5, isDir := false }, none) ∧
      (sampleDriver.Stat '/' "/a/b.txt" sampleWorld).2.trace
        = sampleWorld.trace ++ [Call.Stat (filepath.ToSlash '/' "/a/b.txt")]) ∧
    ((sampleDriver.Stat '/' "/pub/readme" { fs := bareFs, trace := [] }).1
        = Outcome.returned (some { name := "readme", size := 2, isDir := false }, none) ∧
      (sampleDriver.Stat '/' "/pub/readme" { fs := bareFs, trace := [] }).2.trace
        = [] ++ [Call.Stat (filepath.ToSlash '/' "/pub/readme"),
            Call.Stat (strings.TrimPrefix (filepath.ToSlash '/' "/pub/readme") "/")]) ∧
    ((sampleDriver.Stat '/' "/nope" sampleWorld).1 = Outcome.returned (none, some ErrNotExist) ∧
      (sampleDriver.Stat '/' "/nope" sampleWorld).2.trace
        = sampleWorld.trace ++ [Call.Stat (filepath.ToSlash '/' "/nope"),
            Call.Stat (strings.TrimPrefix (filepath.ToSlash '/' "/nope") "/")]) :=
  ⟨(Stat_lookup_and_retry sampleDriver '/' "/a/b.txt" sampleWorld).2.2.1
      (nodeInfo "/a/b.txt" (Node.file [104, 101, 108, 108, 111])) (by decide),
    (Stat_lookup_and_retry sampleDriver '/' "/pub/readme" { fs := bareFs, trace := [] }).2.2.2.1
      none ErrNotExist (nodeInfo "pub/readme" (Node.file [1, 2])) (by decide) (by decide),
    (Stat_lookup_and_retry sampleDriver '/' "/nope" sampleWorld).2.2.2.2
      none ErrNotExist none ErrNotExist (by decide) (by decide)⟩

/-! ## ChangeDir -/

/-- C7: `ChangeDir` returns the error of a failed `Stat` and keeps the receiver; on
a non-directory it returns "not a dir" and keeps the receiver; on a directory it
returns nil and stores the path exactly as given, leaving the backend handle and
the permission field as they were. -/
theorem ChangeDir_working_directory {σ : Type} (driver : AferoDriver σ) (Separator : Char)
    (path : String) (w : World σ) :
    (∀ x e, (driver.Stat Separator path w).1 = Outcome.returned (x, some e) →
      (driver.ChangeDir Separator path w).1 = Outcome.returned (some e) ∧
      (driver.ChangeDir Separator path w).2.1 = driver) ∧
    (∀ f, (driver.Stat Separator path w).1 = Outcome.returned (some f, none) → f.isDir = false →
      (driver.ChangeDir Separator path w).1 = Outcome.returned (some (errors.New "not a dir")) ∧
      (driver.ChangeDir Separator path w).2.1 = driver) ∧
    (∀ f, (driver.Stat Separator path w).1 = Outcome.returned (some f, none) → f.isDir = true →
      (driver.ChangeDir Separator path w).1 = Outcome.returned none ∧
      (driver.ChangeDir Separator path w).2.1.curDir = path ∧
      (driver.ChangeDir Separator path w).2.1.aferoFS = driver.aferoFS ∧
      (driver.ChangeDir Separator path w).2.1.Perm = driver.Perm) := by
  refine ⟨?_, ?_, ?_⟩
  · intro x e h
    simp [AferoDriver.ChangeDir, h]
  · intro f h hf
    simp [AferoDriver.ChangeDir, h, FileInfo.IsDir, hf]
  · intro f h hf
    simp [AferoDriver.ChangeDir, h, FileInfo.IsDir, hf]

/-- C7 at concrete stores: a missing path, a file, and a directory that is found
only by the retry (the stored directory keeps the leading slash). -/
theorem ChangeDir_working_directory_witness :
    ((sampleDriver.ChangeDir '/' "/nope" sampleWorld).1 = Outcome.returned (some ErrNotExist) ∧
      (sampleDriver.ChangeDir '/' "/nope" sampleWorld).2.1 = sampleDriver) ∧
    ((sampleDriver.ChangeDir '/' "/x.txt" sampleWorld).1
        = Outcome.returned (some (errors.New "not a dir")) ∧
      (sampleDriver.ChangeDir '/' "/x.txt" sampleWorld).2.1 = sampleDriver) ∧
    ((sampleDriver.ChangeDir '/' "/pub" { fs := bareFs, trace := [] }).1 = Outcome.returned none ∧
      (sampleDriver.ChangeDir '/' "/pub" { fs := bareFs, trace := [] }).2.1.curDir = "/pub" ∧
      (sampleDriver.ChangeDir '/' "/pub" { fs := bareFs, trace := [] }).2.1.aferoFS
        = sampleDriver.aferoFS ∧
      (sampleDriver.ChangeDir '/' "/pub" { fs := bareFs, trace := [] }).2.1.Perm
        = sampleDriver.Perm) :=
  ⟨(ChangeDir_working_directory sampleDriver '/' "/nope" sampleWorld).1
      none ErrNotExist (by decide),
    (ChangeDir_working_directory sampleDriver '/' "/x.txt" sampleWorld).2.1
      { name := "x.txt", size := 3, isDir := false } (by decide) rfl,
    (ChangeDir_working_directory sampleDriver '/' "/pub" { fs := bareFs, trace := [] }).2.2
      { name := "pub", size := 0, isDir := true } (by decide) rfl⟩

/-! ## ListDir -/

/-- The loop of `ListDir` calls the visitor on a leading part of the entries, in order. -/
theorem ListDir_loop_leading {σ τ : Type} (callback : τ → FileInfo → Option GoError × τ)
    (entries : List OsFileInfo) (c : τ) (w : World σ) :
    ∃ k, k ≤ entries.length ∧
      (AferoDriver.ListDir.loop callback entries c w).2.2.trace
        = w.trace ++ visits callback c (entries.map metadata) k ∧
      (AferoDriver.ListDir.loop callback entries c w).2.2.fs = w.fs := by
  induction entries generalizing c w with
  | nil => exact ⟨0, le_refl _, by simp [AferoDriver.ListDir.loop, visits], rfl⟩
  | cons entry rest ih =>
    cases hans : (callback c (metadata entry)).1 with
    | some err =>
      refine ⟨1, by simp, ?_, ?_⟩
      · simp only [metadata] at hans
        simp [AferoDriver.ListDir.loop, hans, World.log, visits, answers, metadata]
      · simp only [metadata] at hans
        simp [AferoDriver.ListDir.loop, hans, World.log]
    | none =>
      obtain ⟨k, hk, htrace, hfs⟩ := ih (callback c (metadata entry)).2
        (w.log (Call.Callback (metadata entry) none))
      refine ⟨k + 1, by simpa using hk, ?_, ?_⟩
      · simp only [metadata] at hans htrace
        simp only [AferoDriver.ListDir.loop, hans, htrace]
        simp [World.log, visits, answers, metadata, hans]
      · simp only [metadata] at hans hfs
        simp only [AferoDriver.ListDir.loop, hans, hfs]
        rfl

/-- When the visitor never errors, the loop visits every entry and returns nil. -/
theorem ListDir_loop_all {σ τ : Type} (callback : τ → FileInfo → Option GoError × τ)
    (entries : List OsFileInfo) (c : τ) (w : World σ)
    (hall : ∀ a ∈ answers callback c (entries.map metadata), a = none) :
    (AferoDriver.ListDir.loop callback entries c w).1 = none ∧
      (AferoDriver.ListDir.loop callback entries c w).2.2.trace
        = w.trace ++ visits callback c (entries.map metadata) entries.length := by
  induction entries generalizing c w with
  | nil => simp [AferoDriver.ListDir.loop, visits]
  | cons entry rest ih =>
    have hans : (callback c (metadata entry)).1 = none :=
      hall _ (by simp [answers])
    have hrest : ∀ a ∈ answers callback (callback c (metadata entry)).2 (rest.map metadata),
        a = none := fun a ha => hall a (by simp [answers, ha])
    obtain ⟨h1, h2⟩ := ih (callback c (metadata entry)).2
      (w.log (Call.Callback (metadata entry) none)) hrest
    simp only [metadata] at hans h1 h2
    refine ⟨by simp only [AferoDriver.ListDir.loop, hans, h1], ?_⟩
    simp only [AferoDriver.ListDir.loop, hans, h2]
    simp [World.log, visits, answers, metadata, hans]

/-- When answer `k` is the first error, the loop makes `k + 1` visitor calls and
returns that error. -/
theorem ListDir_loop_stop {σ τ : Type} (callback : τ → FileInfo → Option GoError × τ)
    (entries : List OsFileInfo) (c : τ) (w : World σ) (k : Nat) (e : GoError)
    (hk : (answers callback c (entries.map metadata))[k]? = some (some e))
    (hbefore : ∀ i, i < k → (answers callback c (entries.map metadata))[i]? = some none) :
    (AferoDriver.ListDir.loop callback entries c w).1 = some e ∧
      (AferoDriver.ListDir.loop callback entries c w).2.2.trace
        = w.trace ++ visits callback c (entries.map metadata) (k + 1) := by
  induction entries generalizing c w k with
  | nil => simp [answers] at hk
  | cons entry rest ih =>
    cases k with
    | zero =>
      have hans : (callback c (metadata entry)).1 = some e := by
        simpa [answers] using hk
      simp only [metadata] at hans
      simp [AferoDriver.ListDir.loop, hans, World.log, visits, answers, metadata]
    | succ j =>
      have hans : (callback c (metadata entry)).1 = none := by
        simpa [answers] using hbefore 0 (Nat.succ_pos j)
      have hk2 : (answers callback (callback c (metadata entry)).2 (rest.map metadata))[j]?
          = some (some e) := by simpa [answers] using hk
      have hb2 : ∀ i, i < j →
          (answers callback (callback c (metadata entry)).2 (rest.map metadata))[i]?
            = some none := by
        intro i hi
        simpa [answers] using hbefore (i + 1) (Nat.succ_lt_succ hi)
      obtain ⟨h1, h2⟩ := ih (callback c (metadata entry)).2
        (w.log (Call.Callback (metadata entry) none)) j hk2 hb2
      simp only [metadata] at hans h1 h2
      refine ⟨by simp only [AferoDriver.ListDir.loop, hans, h1], ?_⟩
      simp only [AferoDriver.ListDir.loop, hans, h2]
      simp [World.log, visits, answers, metadata, hans]

/-- C5: when the backend lists `entries` for the path, `ListDir` calls the visitor
on the metadata of a leading part of `entries`, in the listing's order and once
each, and makes no other call after the listing. If the visitor never errors it
is called on all `n` entries and `ListDir` returns nil; if its answer number `k`
(from 0) is its first error, it is called exactly `k + 1` times, on the first
`k + 1` entries, and `ListDir` returns that error. -/
theorem ListDir_visits_in_order {σ τ : Type} (driver : AferoDriver σ) (path : String)
    (callback : τ → FileInfo → Option GoError × τ) (c : τ) (w : World σ)
    (entries : List OsFileInfo)
    (hList : driver.aferoFS.ReadDir w.fs path = (entries, none)) :
    (∃ k, k ≤ entries.length ∧
      (driver.ListDir path callback c w).2.2.trace
        = w.trace ++ Call.ReadDir path :: visits callback c (entries.map metadata) k) ∧
    ((∀ a ∈ answers callback c (entries.map metadata), a = none) →
      (driver.ListDir path callback c w).1 = none ∧
      (driver.ListDir path callback c w).2.2.trace
        = w.trace ++ Call.ReadDir path
            :: visits callback c (entries.map metadata) entries.length) ∧
    (∀ k e, (answers callback c (entries.map metadata))[k]? = some (some e) →
      (∀ i, i < k → (answers callback c (entries.map metadata))[i]? = some none) →
      (driver.ListDir path callback c w).1 = some e ∧
      (driver.ListDir path callback c w).2.2.trace
        = w.trace ++ Call.ReadDir path :: visits callback c (entries.map metadata) (k + 1)) := by
  refine ⟨?_, ?_, ?_⟩
  · obtain ⟨k, hk, htrace, _⟩ :=
      ListDir_loop_leading callback entries c (w.log (Call.ReadDir path))
    exact ⟨k, hk, by simp only [AferoDriver.ListDir, hList, htrace]; simp [World.log]⟩
  · intro hall
    obtain ⟨h1, h2⟩ := ListDir_loop_all callback entries c (w.log (Call.ReadDir path)) hall
    exact ⟨by simp [AferoDriver.ListDir, hList, h1],
      by simp only [AferoDriver.ListDir, hList, h2]; simp [World.log]⟩
  · intro k e hk hbefore
    obtain ⟨h1, h2⟩ :=
      ListDir_loop_stop callback entries c (w.log (Call.ReadDir path)) k e hk hbefore
    exact ⟨by simp [AferoDriver.ListDir, hList, h1],
      by simp only [AferoDriver.ListDir, hList, h2]; simp [World.log]⟩

/-- C5 at the sample store: a visitor that accepts all three entries of `/a`, and
one that fails on the second and is not called on the third. -/
theorem ListDir_visits_in_order_witness :
    sampleDriver.aferoFS.ReadDir sampleWorld.fs "/a" = (sampleListing, none) ∧
    ((sampleDriver.ListDir "/a" (failAt 7) 0 sampleWorld).1 = none ∧
      (sampleDriver.ListDir "/a" (failAt 7) 0 sampleWorld).2.2.trace
        = [Call.ReadDir "/a",
            Call.Callback { name := "b.txt", size := 5, isDir := false } none,
            Call.Callback { name := "c", size := 0, isDir := true } none,
            Call.Callback { name := "d", size := 1, isDir := false } none]) ∧
    ((sampleDriver.ListDir "/a" (failAt 1) 0 sampleWorld).1 = some (errors.New "stop") ∧
      (sampleDriver.ListDir "/a" (failAt 1) 0 sampleWorld).2.2.trace
        = [Call.ReadDir "/a",
            Call.Callback { name := "b.txt", size := 5, isDir := false } none,
            Call.Callback { name := "c", size := 0, isDir := true }
              (some (errors.New "stop"))]) :=
  ⟨by decide,
    (ListDir_visits_in_order sampleDriver "/a" (failAt 7) 0 sampleWorld sampleListing
      (by decide)).2.1 (by decide),
    (ListDir_visits_in_order sampleDriver "/a" (failAt 1) 0 sampleWorld sampleListing
      (by decide)).2.2 1 (errors.New "stop") (by decide) (by decide)⟩

/-! ## The reference backend is a regular store -/

/-- A stored value is found under its key. -/
theorem lookup_store {κ α : Type} [DecidableEq κ] (k : κ) (v : α) (l : List (κ × α)) :
    lookup k (store k v l) = some v := by
  induction l with
  | nil => simp [store, lookup]
  | cons x rest ih =>
    obtain ⟨k1, v1⟩ := x
    by_cases hk : k1 = k
    · simp [store, lookup, hk]
    · simp [store, lookup, hk, ih]

/-- The content reading of the in-memory store, in terms of its entries. -/
theorem memView_content (s : MemFs) (p : String) (c : List Byte) :
    memView.content s p = some c ↔ lookup p s.nodes = some (Node.file c) := by
  simp only [memView]
  cases h : lookup p s.nodes with
  | none => simp
  | some n => cases n <;> simp

/-- The in-memory store satisfies every law of a regular store. -/
theorem memFs_regular : Regular memFs memView where
  create := by
    intro s p h s1 hc
    simp only [memFs] at hc
    split at hc
    · simp at hc
    · simp only [Prod.mk.injEq, Option.some.injEq, true_and] at hc
      obtain ⟨⟨rfl, -⟩, rfl⟩ := hc
      exact ⟨(memView_content _ _ _).2 (lookup_store _ _ _), lookup_store _ _ _⟩
  openAppend := by
    intro s p perm h s1 c ho hcont
    have hn := (memView_content _ _ _).1 hcont
    simp only [memFs, MemFs.openAt, hn, Prod.mk.injEq, Option.some.injEq, true_and] at ho
    obtain ⟨⟨rfl, -⟩, rfl⟩ := ho
    exact ⟨(memView_content _ _ _).2 hn, 0, lookup_store _ _ _⟩
  openRead := by
    intro s p h s1 c ho hcont
    have hn := (memView_content _ _ _).1 hcont
    simp only [memFs, MemFs.openAt, hn, Prod.mk.injEq, Option.some.injEq, true_and] at ho
    obtain ⟨⟨rfl, -⟩, rfl⟩ := ho
    exact ⟨(memView_content _ _ _).2 hn, lookup_store _ _ _⟩
  fileStat := by
    intro s h p pos c info hcur hcont hst
    have hn := (memView_content _ _ _).1 hcont
    have hf : lookup h s.fds = some (p, pos) := hcur
    simp only [memFs, hf, hn] at hst
    split at hst
    · simp at hst
    · simp only [Prod.mk.injEq, Option.some.injEq, and_true] at hst
      subst hst
      simp [nodeInfo]
  seekStart := by
    intro s h p pos c offset n s1 hcur hcont hsk hoff
    have hn := (memView_content _ _ _).1 hcont
    have hf : lookup h s.fds = some (p, pos) := hcur
    have hneg : ¬ offset < 0 := not_lt.mpr hoff
    simp only [memFs, hf, hn, os.SEEK_SET, if_true, hneg, if_false, Prod.mk.injEq, and_true]
      at hsk
    obtain ⟨_, rfl⟩ := hsk
    exact ⟨(memView_content _ _ _).2 hn, lookup_store _ _ _⟩
  seekEnd := by
    intro s h p pos c n s1 hcur hcont hsk
    have hn := (memView_content _ _ _).1 hcont
    have hf : lookup h s.fds = some (p, pos) := hcur
    have hneg : ¬ ((c.length : Int) + 0 < 0) := by omega
    simp only [memFs, hf, hn, os.SEEK_SET, os.SEEK_END, if_true, hneg, if_false,
      Prod.mk.injEq, and_true] at hsk
    simp only [show ¬ (2 = 0) by decide, if_false] at hsk
    obtain ⟨_, rfl⟩ := hsk
    refine ⟨(memView_content _ _ _).2 hn, ?_⟩
    show lookup h (store h (p, ((c.length : Int) + 0).toNat) s.fds) = some (p, c.length)
    rw [lookup_store]
    simp
  writeAtEnd := by
    intro s h p c buf s1 hcur hcont hwr
    have hn := (memView_content _ _ _).1 hcont
    have hf : lookup h s.fds = some (p, c.length) := hcur
    simp only [memFs, hf, hn, Prod.mk.injEq, true_and] at hwr
    subst hwr
    refine ⟨(memView_content _ _ _).2 ?_, lookup_store _ _ _⟩
    show lookup p (store p _ s.nodes) = _
    rw [lookup_store]
    simp
  close := by
    intro s h s1 r p hcl
    simp only [memFs] at hcl
    split at hcl
    · simp only [Prod.mk.injEq] at hcl
      obtain ⟨_, rfl⟩ := hcl
      rfl
    · simp only [Prod.mk.injEq] at hcl
      obtain ⟨_, rfl⟩ := hcl
      rfl

/-! ## Handles opened by an upload are closed -/

/-- A trace that obtains no handle leaves none unclosed. -/
theorem unclosed_of_no_obtains (l : List Call) (h : ∀ c ∈ l, c.obtains = none) :
    unclosed l = [] := by
  induction l with
  | nil => rfl
  | cons c rest ih =>
    have hc : c.obtains = none := h c (List.mem_cons_self _ _)
    simp [unclosed, hc, ih (fun c1 h1 => h c1 (List.mem_cons_of_mem _ h1))]

/-- A handle obtained once and closed at the end of the trace is not left unclosed. -/
theorem unclosed_opened_closed (pre t : List Call) (c0 : Call) (f : Handle)
    (hpre : ∀ c ∈ pre, c.obtains = none) (ht : ∀ c ∈ t, c.obtains = none)
    (hc0 : c0.obtains = some f) :
    unclosed (pre ++ c0 :: (t ++ [Call.FileClose f])) = [] := by
  induction pre with
  | nil =>
    have hrest : ∀ c ∈ t ++ [Call.FileClose f], c.obtains = none := by
      intro c hc
      rcases List.mem_append.mp hc with h1 | h1
      · exact ht c h1
      · simp at h1; subst h1; rfl
    simp [unclosed, hc0, unclosed_of_no_obtains _ hrest]
  | cons c rest ih =>
    have hc : c.obtains = none := hpre c (List.mem_cons_self _ _)
    simp only [List.cons_append, unclosed, hc]
    exact ih (fun c1 h1 => hpre c1 (List.mem_cons_of_mem _ h1))

/-- The world after the write step of `io.Copy`. -/
theorem Copy_write_world {σ : Type} (B : Fs σ) (dst : Handle) (buf : List Byte) (written : Int)
    (w : World σ) :
    (io.Copy.write B dst buf written w).2
      = w.next (B.FileWrite dst buf w.fs).2 (Call.FileWrite dst buf) := by
  unfold io.Copy.write
  simp only
  repeat' split
  all_goals rfl

/-- The calls `io.Copy` adds to the trace obtain no handle. -/
theorem Copy_trace {σ : Type} (B : Fs σ) (dst : Handle) (data : Reader) (written : Int)
    (w : World σ) :
    ∃ t, (io.Copy B dst data written w).2.trace = w.trace ++ t ∧ ∀ c ∈ t, c.obtains = none := by
  induction data generalizing written w with
  | nil => exact ⟨[Call.Read], rfl, by simp [Call.obtains]⟩
  | cons r src ih =>
    have hwr : ∃ t0, (if 0 < r.p.length then io.Copy.write B dst r.p written (w.log Call.Read)
        else ((written, none), w.log Call.Read)).2.trace = w.trace ++ t0 ∧
        ∀ c ∈ t0, c.obtains = none := by
      split
      · exact ⟨[Call.Read, Call.FileWrite dst r.p],
          by rw [Copy_write_world]; simp [World.log, World.next], by simp [Call.obtains]⟩
      · exact ⟨[Call.Read], by simp [World.log], by simp [Call.obtains]⟩
    obtain ⟨t0, h0, hn0⟩ := hwr
    simp only [io.Copy]
    generalize (if 0 < r.p.length then io.Copy.write B dst r.p written (w.log Call.Read)
        else ((written, none), w.log Call.Read)) = wr at h0 ⊢
    split
    · exact ⟨t0, h0, hn0⟩
    · split
      · exact ⟨t0, h0, hn0⟩
      · exact ⟨t0, h0, hn0⟩
      · obtain ⟨t, h1, h2⟩ := ih wr.1.1 wr.2
        refine ⟨t0 ++ t, by rw [h1, h0, List.append_assoc], ?_⟩
        intro c hc
        rcases List.mem_append.mp hc with h | h
        · exact hn0 c h
        · exact h2 c h

/-- A handle obtained before `io.Copy` and closed right after it is not left unclosed. -/
theorem unclosed_after_copy {σ : Type} (B : Fs σ) (f : Handle) (data : Reader) (s : σ)
    (pre mid : List Call) (c0 : Call) (hpre : ∀ c ∈ pre, c.obtains = none)
    (hmid : ∀ c ∈ mid, c.obtains = none) (hc0 : c0.obtains = some f) :
    unclosed ((io.Copy B f data 0 { fs := s, trace := pre ++ c0 :: mid }).2.trace
      ++ [Call.FileClose f]) = [] := by
  obtain ⟨t, ht, hno⟩ := Copy_trace B f data 0 { fs := s, trace := pre ++ c0 :: mid }
  rw [ht]
  have hmt : ∀ c ∈ mid ++ t, c.obtains = none := by
    intro c hc
    rcases List.mem_append.mp hc with h | h
    · exact hmid c h
    · exact hno c h
  have := unclosed_opened_closed pre (mid ++ t) c0 f hpre hmt hc0
  simpa using this

/-- Every handle `PutFile` obtains from the backend is closed when it returns, on
every path: from an empty trace, no handle is left unclosed. -/
theorem PutFile_closes_its_handles {σ : Type} (driver : AferoDriver σ) (destPath : String)
    (data : Reader) (appendData : Bool) (s : σ) :
    unclosed (driver.PutFile destPath data appendData { fs := s, trace := [] }).2.trace = [] := by
  cases hprobe : AferoDriver.PutFile.probe (driver.aferoFS.Stat s destPath) with
  | error res => simp [AferoDriver.PutFile, hprobe, World.log, unclosed, Call.obtains]
  | ok isExist =>
    rcases hrm : driver.aferoFS.Remove destPath s with ⟨re, s1⟩
    rcases hcr1 : driver.aferoFS.Create destPath s1 with ⟨⟨cf1, ce1⟩, s2⟩
    rcases hcr0 : driver.aferoFS.Create destPath s with ⟨⟨cf0, ce0⟩, s3⟩
    rcases hop : driver.aferoFS.OpenFile destPath (os.O_APPEND ||| os.O_RDWR) 0o660 s
      with ⟨⟨of, oe⟩, s4⟩
    have fresh : ∀ f : Handle, unclosed ((io.Copy driver.aferoFS f data 0
        { fs := s3, trace := [Call.Stat destPath, Call.Create destPath (some f)] }).2.trace
        ++ [Call.FileClose f]) = [] := fun f => by
      simpa using unclosed_after_copy driver.aferoFS f data s3 [Call.Stat destPath] []
        (Call.Create destPath (some f)) (by simp [Call.obtains]) (by simp) rfl
    cases isExist <;> cases appendData
    · cases ce0 <;> cases cf0 <;>
        simp [AferoDriver.PutFile, hprobe, World.log, World.next, hcr0, obtained, unclosed,
          Call.obtains, deferClose]
      split <;> simpa using fresh _
    · cases ce0 <;> cases cf0 <;>
        simp [AferoDriver.PutFile, hprobe, World.log, World.next, hcr0, obtained, unclosed,
          Call.obtains, deferClose]
      split <;> simpa using fresh _
    · cases re <;> cases ce1 <;> cases cf1 <;>
        simp [AferoDriver.PutFile, hprobe, World.log, World.next, hrm, hcr1, obtained, unclosed,
          Call.obtains, deferClose]
      rename_i f
      have key := unclosed_after_copy driver.aferoFS f data s2
        [Call.Stat destPath, Call.Remove destPath] [] (Call.Create destPath (some f))
        (by simp [Call.obtains]) (by simp) rfl
      split <;> simpa using key
    · cases oe <;> cases of <;>
        simp [AferoDriver.PutFile, hprobe, World.log, World.next, hop, obtained, unclosed,
          Call.obtains, deferClose]
      rename_i f
      have key := unclosed_after_copy driver.aferoFS f data
        (driver.aferoFS.FileSeek f 0 os.SEEK_END s4).2 [Call.Stat destPath]
        [Call.FileSeek f 0 os.SEEK_END]
        (Call.OpenFile destPath (os.O_APPEND ||| os.O_RDWR) 0o660 (some f))
        (by simp [Call.obtains]) (by simp [Call.obtains]) rfl
      split
      · simp [unclosed, Call.obtains]
      · split <;> simpa using key

/-! ## Upload: what `io.Copy` leaves in the file -/

/-- A `Write` that takes the whole buffer adds its length and does not break the loop. -/
theorem Copy_write_full {σ : Type} (B : Fs σ) (dst : Handle) (buf : List Byte) (written : Int)
    (w : World σ) (hw : (B.FileWrite dst buf w.fs).1 = ((buf.length : Int), none)) :
    io.Copy.write B dst buf written w
      = ((written + buf.length, none),
          w.next (B.FileWrite dst buf w.fs).2 (Call.FileWrite dst buf)) := by
  have h1 : (B.FileWrite dst buf w.fs).1.1 = (buf.length : Int) := by rw [hw]
  have h2 : (B.FileWrite dst buf w.fs).1.2 = none := by rw [hw]
  have h3 : ¬ ((buf.length : Int) < 0) := by omega
  simp [io.Copy.write, h1, h2, h3]

/-- On a regular store whose writes to the handle succeed, copying a stream whose
reads do not fail onto a handle standing at the end of its file appends the
stream's bytes and counts them. -/
theorem Copy_appends {σ : Type} (B : Fs σ) (V : View σ) (hB : Regular B V) (dst : Handle)
    (name : String)
    (hWrite : ∀ s buf pos, V.cursor s dst = some (name, pos) → V.content s name ≠ none →
      (B.FileWrite dst buf s).1 = ((buf.length : Int), none))
    (data : Reader) (hRead : ∀ r ∈ data, r.err = none ∨ r.err = some ReadErr.EOF)
    (written : Int) (w : World σ) (c : List Byte)
    (hcur : V.cursor w.fs dst = some (name, c.length)) (hcont : V.content w.fs name = some c) :
    (io.Copy B dst data written w).1 = (written + (Reader.bytes data).length, none) ∧
    V.content (io.Copy B dst data written w).2.fs name = some (c ++ Reader.bytes data) := by
  induction data generalizing written w c with
  | nil => simp [io.Copy, Reader.bytes, World.log, hcont]
  | cons r src ih =>
    have hsrc : ∀ r1 ∈ src, r1.err = none ∨ r1.err = some ReadErr.EOF :=
      fun r1 h1 => hRead r1 (List.mem_cons_of_mem _ h1)
    have hr : ∀ e, r.err ≠ some (ReadErr.failure e) := by
      intro e he
      rcases hRead r (List.mem_cons_self _ _) with h0 | h0 <;> simp [h0] at he
    by_cases hlen : 0 < r.p.length
    · have hw := hWrite w.fs r.p c.length hcur (by simp [hcont])
      have hstep := Copy_write_full B dst r.p written (w.log Call.Read) hw
      have hpair : B.FileWrite dst r.p w.fs
          = (((r.p.length : Int), none), (B.FileWrite dst r.p w.fs).2) := by
        rw [← hw]
      obtain ⟨hc1, hk1⟩ := hB.writeAtEnd w.fs dst name c r.p _ hcur hcont hpair
      cases herr : r.err with
      | none =>
        have hk2 : V.cursor (B.FileWrite dst r.p w.fs).2 dst = some (name, (c ++ r.p).length) := by
          simpa using hk1
        obtain ⟨i1, i2⟩ := ih hsrc (written + r.p.length)
          ((w.log Call.Read).next (B.FileWrite dst r.p w.fs).2 (Call.FileWrite dst r.p))
          (c ++ r.p) hk2 hc1
        simp only [io.Copy, hlen, if_true, hstep, herr]
        refine ⟨?_, ?_⟩
        · refine i1.trans ?_
          simp [Reader.bytes, herr]; ring
        · refine i2.trans ?_
          simp [Reader.bytes, herr]
      | some x =>
        cases x with
        | EOF =>
          simp only [io.Copy, hlen, if_true, hstep, herr]
          exact ⟨by simp [Reader.bytes, herr], by simpa [Reader.bytes, herr, World.next] using hc1⟩
        | failure e => exact absurd herr (hr e)
    · have hnil : r.p = [] := List.length_eq_zero.mp (by omega)
      cases herr : r.err with
      | none =>
        obtain ⟨i1, i2⟩ := ih hsrc written (w.log Call.Read) c hcur hcont
        simp only [io.Copy, hlen, if_false, herr]
        refine ⟨?_, ?_⟩
        · refine i1.trans ?_
          simp [Reader.bytes, herr, hnil]
        · refine i2.trans ?_
          simp [Reader.bytes, herr, hnil]
      | some x =>
        cases x with
        | EOF =>
          simp only [io.Copy, hlen, if_false, herr]
          exact ⟨by simp [Reader.bytes, herr, hnil],
            by simpa [Reader.bytes, herr, hnil, World.log] using hcont⟩
        | failure e => exact absurd herr (hr e)

/-- Writes of the in-memory store to an open handle on a regular file succeed in full. -/
theorem memFs_write_full (s : MemFs) (h : Handle) (buf : List Byte) (name : String) (pos : Nat)
    (hcur : memView.cursor s h = some (name, pos)) (hcont : memView.content s name ≠ none) :
    (memFs.FileWrite h buf s).1 = ((buf.length : Int), none) := by
  have hf : lookup h s.fds = some (name, pos) := hcur
  cases hc : memView.content s name with
  | none => exact absurd hc hcont
  | some c =>
    have hn := (memView_content _ _ _).1 hc
    simp [memFs, hf, hn]

/-! ## Upload over an existing file -/

/-- C3: on a regular store, when the destination is reported as a file (whatever
it holds), the backend's `Remove` and `Create` succeed, writes to the created
handle succeed in full and no read of the data fails, `PutFile` without append
returns the number of bytes of the data with a nil error, and the destination
then holds exactly the data; the calls begin with `Stat`, `Remove`, `Create`. -/
theorem PutFile_overwrite {σ : Type} (driver : AferoDriver σ) (V : View σ)
    (hB : Regular driver.aferoFS V) (destPath : String) (data : Reader) (w : World σ)
    (f : OsFileInfo) (s1 s2 : σ) (h : Handle)
    (hStat : driver.aferoFS.Stat w.fs destPath = (some f, none)) (hFile : f.IsDir = false)
    (hRemove : driver.aferoFS.Remove destPath w.fs = (none, s1))
    (hCreate : driver.aferoFS.Create destPath s1 = ((some h, none), s2))
    (hWrite : ∀ s buf pos, V.cursor s h = some (destPath, pos) → V.content s destPath ≠ none →
      (driver.aferoFS.FileWrite h buf s).1 = ((buf.length : Int), none))
    (hRead : ∀ r ∈ data, r.err = none ∨ r.err = some ReadErr.EOF) :
    (driver.PutFile destPath data false w).1
      = Outcome.returned (((Reader.bytes data).length : Int), none) ∧
    V.content (driver.PutFile destPath data false w).2.fs destPath
      = some (Reader.bytes data) ∧
    ∃ t, (driver.PutFile destPath data false w).2.trace
      = w.trace ++ Call.Stat destPath :: Call.Remove destPath
          :: Call.Create destPath (some h) :: t := by
  obtain ⟨hc, hk⟩ := hB.create s1 destPath h s2 hCreate
  obtain ⟨c1, c2⟩ := Copy_appends driver.aferoFS V hB h destPath hWrite data hRead 0
    (((w.log (Call.Stat destPath)).next s1 (Call.Remove destPath)).next s2
      (Call.Create destPath (some h))) [] hk hc
  obtain ⟨t, ht, -⟩ := Copy_trace driver.aferoFS h data 0
    (((w.log (Call.Stat destPath)).next s1 (Call.Remove destPath)).next s2
      (Call.Create destPath (some h)))
  have c3 := congrArg Prod.fst c1
  have c4 := congrArg Prod.snd c1
  simp [World.log, World.next] at c2 c3 c4 ht
  refine ⟨?_, ?_, t ++ [Call.FileClose h], ?_⟩
  · simp [AferoDriver.PutFile, AferoDriver.PutFile.probe, hStat, hFile, World.log, World.next,
      hRemove, hCreate, obtained, deferClose, c3, c4]
  · simp [AferoDriver.PutFile, AferoDriver.PutFile.probe, hStat, hFile, World.log, World.next,
      hRemove, hCreate, obtained, deferClose, c3, c4]
    rw [hB.close _ h _ _ destPath rfl, c2]
  · simp [AferoDriver.PutFile, AferoDriver.PutFile.probe, hStat, hFile, World.log, World.next,
      hRemove, hCreate, obtained, deferClose, c3, c4, ht]

/-- C3 at the sample store: `/x.txt` holds 1, 2, 3 and receives 7, 8, 9. -/
theorem PutFile_overwrite_witness :
    Regular sampleDriver.aferoFS memView ∧
    memView.content sampleWorld.fs "/x.txt" = some [1, 2, 3] ∧
    Reader.bytes sampleData = [7, 8, 9] ∧
    (sampleDriver.PutFile "/x.txt" sampleData false sampleWorld).1
      = Outcome.returned (((Reader.bytes sampleData).length : Int), none) ∧
    memView.content (sampleDriver.PutFile "/x.txt" sampleData false sampleWorld).2.fs "/x.txt"
      = some (Reader.bytes sampleData) ∧
    ∃ t, (sampleDriver.PutFile "/x.txt" sampleData false sampleWorld).2.trace
      = sampleWorld.trace ++ Call.Stat "/x.txt" :: Call.Remove "/x.txt"
          :: Call.Create "/x.txt" (some 3) :: t :=
  ⟨memFs_regular, by decide, by decide,
    PutFile_overwrite sampleDriver memView memFs_regular "/x.txt" sampleData sampleWorld
      (nodeInfo "/x.txt" (Node.file [1, 2, 3]))
      (memFs.Remove "/x.txt" sampleFs).2
      (memFs.Create "/x.txt" (memFs.Remove "/x.txt" sampleFs).2).2 3
      (by decide) (by decide) rfl rfl
      (fun s buf pos => memFs_write_full s 3 buf "/x.txt" pos) (by decide)⟩

/-! ## Upload appended to an existing file -/

/-- C4: on a regular store, when the destination is reported as a file and holds
`C`, the backend's `OpenFile` and `Seek` succeed, writes to the opened handle
succeed in full and no read of the data fails, `PutFile` with append leaves the
destination holding `C ++ data` and returns the number of bytes of the data alone
with a nil error; the calls begin with `Stat`, `OpenFile` for append, `Seek` to
the end. -/
theorem PutFile_append {σ : Type} (driver : AferoDriver σ) (V : View σ)
    (hB : Regular driver.aferoFS V) (destPath : String) (data : Reader) (w : World σ)
    (f : OsFileInfo) (C : List Byte) (s1 s2 : σ) (h : Handle) (n : Int)
    (hStat : driver.aferoFS.Stat w.fs destPath = (some f, none)) (hFile : f.IsDir = false)
    (hPrior : V.content w.fs destPath = some C)
    (hOpen : driver.aferoFS.OpenFile destPath (os.O_APPEND ||| os.O_RDWR) 0o660 w.fs
      = ((some h, none), s1))
    (hSeek : driver.aferoFS.FileSeek h 0 os.SEEK_END s1 = ((n, none), s2))
    (hWrite : ∀ s buf pos, V.cursor s h = some (destPath, pos) → V.content s destPath ≠ none →
      (driver.aferoFS.FileWrite h buf s).1 = ((buf.length : Int), none))
    (hRead : ∀ r ∈ data, r.err = none ∨ r.err = some ReadErr.EOF) :
    (driver.PutFile destPath data true w).1
      = Outcome.returned (((Reader.bytes data).length : Int), none) ∧
    V.content (driver.PutFile destPath data true w).2.fs destPath
      = some (C ++ Reader.bytes data) ∧
    ∃ t, (driver.PutFile destPath data true w).2.trace
      = w.trace ++ Call.Stat destPath
          :: Call.OpenFile destPath (os.O_APPEND ||| os.O_RDWR) 0o660 (some h)
          :: Call.FileSeek h 0 os.SEEK_END :: t := by
  obtain ⟨ho, pos, hp⟩ := hB.openAppend w.fs destPath 0o660 h s1 C hOpen hPrior
  obtain ⟨hc, hk⟩ := hB.seekEnd s1 h destPath pos C n s2 hp ho hSeek
  obtain ⟨c1, c2⟩ := Copy_appends driver.aferoFS V hB h destPath hWrite data hRead 0
    (((w.log (Call.Stat destPath)).next s1
        (Call.OpenFile destPath (os.O_APPEND ||| os.O_RDWR) 0o660 (some h))).next s2
      (Call.FileSeek h 0 os.SEEK_END)) C hk hc
  obtain ⟨t, ht, -⟩ := Copy_trace driver.aferoFS h data 0
    (((w.log (Call.Stat destPath)).next s1
        (Call.OpenFile destPath (os.O_APPEND ||| os.O_RDWR) 0o660 (some h))).next s2
      (Call.FileSeek h 0 os.SEEK_END))
  have c3 := congrArg Prod.fst c1
  have c4 := congrArg Prod.snd c1
  simp [World.log, World.next] at c2 c3 c4 ht
  refine ⟨?_, ?_, t ++ [Call.FileClose h], ?_⟩
  · simp [AferoDriver.PutFile, AferoDriver.PutFile.probe, hStat, hFile, World.log, World.next,
      hOpen, hSeek, obtained, deferClose, c3, c4]
  · simp [AferoDriver.PutFile, AferoDriver.PutFile.probe, hStat, hFile, World.log, World.next,
      hOpen, hSeek, obtained, deferClose, c3, c4]
    rw [hB.close _ h _ _ destPath rfl, c2]
  · simp [AferoDriver.PutFile, AferoDriver.PutFile.probe, hStat, hFile, World.log, World.next,
      hOpen, hSeek, obtained, deferClose, c3, c4, ht]

/-- C4 at the sample store: `/x.txt` holds 1, 2, 3 and is appended 7, 8, 9. -/
theorem PutFile_append_witness :
    Regular sampleDriver.aferoFS memView ∧
    memView.content sampleWorld.fs "/x.txt" = some [1, 2, 3] ∧
    Reader.bytes sampleData = [7, 8, 9] ∧
    (sampleDriver.PutFile "/x.txt" sampleData true sampleWorld).1
      = Outcome.returned (((Reader.bytes sampleData).length : Int), none) ∧
    memView.content (sampleDriver.PutFile "/x.txt" sampleData true sampleWorld).2.fs "/x.txt"
      = some ([1, 2, 3] ++ Reader.bytes sampleData) ∧
    ∃ t, (sampleDriver.PutFile "/x.txt" sampleData true sampleWorld).2.trace
      = sampleWorld.trace ++ Call.Stat "/x.txt"
          :: Call.OpenFile "/x.txt" (os.O_APPEND ||| os.O_RDWR) 0o660 (some 3)
          :: Call.FileSeek 3 0 os.SEEK_END :: t :=
  ⟨memFs_regular, by decide, by decide,
    PutFile_append sampleDriver memView memFs_regular "/x.txt" sampleData sampleWorld
      (nodeInfo "/x.txt" (Node.file [1, 2, 3])) [1, 2, 3]
      (memFs.OpenFile "/x.txt" (os.O_APPEND ||| os.O_RDWR) 0o660 sampleFs).2
      (memFs.FileSeek 3 0 os.SEEK_END
        (memFs.OpenFile "/x.txt" (os.O_APPEND ||| os.O_RDWR) 0o660 sampleFs).2).2 3 3
      (by decide) (by decide) (by decide) rfl rfl
      (fun s buf pos => memFs_write_full s 3 buf "/x.txt" pos) (by decide)⟩

/-! ## Download -/

/-- Taking seeking away keeps a regular store regular: the laws only speak of
operations that succeed. -/
theorem withoutSeek_regular {σ : Type} (B : Fs σ) (V : View σ) (e : GoError)
    (hB : Regular B V) : Regular (withoutSeek B e) V where
  create := hB.create
  openAppend := hB.openAppend
  openRead := hB.openRead
  fileStat := hB.fileStat
  seekStart := by
    intro s h p pos c offset n s1 _ _ hsk
    simp [withoutSeek] at hsk
  seekEnd := by
    intro s h p pos c n s1 _ _ hsk
    simp [withoutSeek] at hsk
  writeAtEnd := hB.writeAtEnd
  close := hB.close

/-- C8 as stated fails when the `Seek` fails: on a regular store whose handles
cannot seek, `/a/b.txt` holds "hello", `Open` succeeds and offset 1 is in range,
yet `GetFile` returns `(5, handle 3, nil)` with the handle still at the start:
it has all of "hello" to deliver, not "ello". -/
theorem GetFile_ignores_seek_error :
    Regular unseekableDriver.aferoFS memView ∧
    memView.content sampleWorld.fs "/a/b.txt" = some [104, 101, 108, 108, 111] ∧
    (unseekableDriver.aferoFS.Open "/a/b.txt" sampleWorld.fs).1 = (some 3, none) ∧
    (0 : Int) ≤ 1 ∧ (1 : Int) < ([104, 101, 108, 108, 111] : List Byte).length ∧
    (unseekableDriver.GetFile "/a/b.txt" 1 sampleWorld).1
      = Outcome.returned (5, some 3, none) ∧
    memView.pending (unseekableDriver.GetFile "/a/b.txt" 1 sampleWorld).2.fs 3
      = some [104, 101, 108, 108, 111] ∧
    memView.pending (unseekableDriver.GetFile "/a/b.txt" 1 sampleWorld).2.fs 3
      ≠ some (([104, 101, 108, 108, 111] : List Byte).drop (1 : Int).toNat) :=
  ⟨withoutSeek_regular memFs memView ErrSeek memFs_regular, by decide, by decide, by decide,
    by decide, by decide, by decide, by decide⟩

/-- C8, amended: on a regular store, when the path holds `B`, the backend opens
it, the `Stat` on the handle and the `Seek` succeed and `0 ≤ offset < len(B)`,
`GetFile` returns `len(B)` (the whole length), the open handle and a nil error,
and the handle has still to deliver `B` from `offset` on, beginning with the byte
at `offset`. When `Open` fails, or the `Stat` on the handle fails, `GetFile`
returns `(0, nil, that error)`. Whatever the `Seek` answers, once `Open` and the
`Stat` on the handle succeed `GetFile` returns the reported size, the handle and
a nil error. -/
theorem GetFile_from_offset {σ : Type} (driver : AferoDriver σ) (path : String) (offset : Int)
    (w : World σ) :
    (∀ (V : View σ) (B : List Byte) (h : Handle) (s1 s2 : σ) (info : OsFileInfo) (n : Int),
      Regular driver.aferoFS V → V.content w.fs path = some B →
      driver.aferoFS.Open path w.fs = ((some h, none), s1) →
      driver.aferoFS.FileStat s1 h = (some info, none) →
      driver.aferoFS.FileSeek h offset os.SEEK_SET s1 = ((n, none), s2) →
      0 ≤ offset → offset < B.length →
      (driver.GetFile path offset w).1 = Outcome.returned ((B.length : Int), some h, none) ∧
      V.pending (driver.GetFile path offset w).2.fs h = some (B.drop offset.toNat) ∧
      ∃ b, B[offset.toNat]? = some b ∧ B.drop offset.toNat = b :: B.drop (offset.toNat + 1)) ∧
    (∀ x err, (driver.aferoFS.Open path w.fs).1 = (x, some err) →
      (driver.GetFile path offset w).1 = Outcome.returned (0, none, some err)) ∧
    (∀ h s1 x err, driver.aferoFS.Open path w.fs = ((some h, none), s1) →
      driver.aferoFS.FileStat s1 h = (x, some err) →
      (driver.GetFile path offset w).1 = Outcome.returned (0, none, some err)) ∧
    (∀ h s1 info, driver.aferoFS.Open path w.fs = ((some h, none), s1) →
      driver.aferoFS.FileStat s1 h = (some info, none) →
      (driver.GetFile path offset w).1 = Outcome.returned (info.Size, some h, none)) := by
  refine ⟨?_, ?_, ?_, ?_⟩
  · intro V B h s1 s2 info n hB hcont hOpen hStat hSeek hlo hhi
    obtain ⟨ho, hk⟩ := hB.openRead w.fs path h s1 B hOpen hcont
    have hsize := hB.fileStat s1 h path 0 B info hk ho hStat
    obtain ⟨hc2, hk2⟩ := hB.seekStart s1 h path 0 B offset n s2 hk ho hSeek hlo
    have hlt : offset.toNat < B.length := by omega
    refine ⟨?_, ?_, ?_⟩
    · simp [AferoDriver.GetFile, hOpen, hStat, hSeek, World.next, World.log, hsize]
    · simp [AferoDriver.GetFile, hOpen, hStat, hSeek, World.next, World.log, View.pending,
        hk2, hc2]
    · exact ⟨B[offset.toNat], by simp [hlt], List.drop_eq_getElem_cons hlt⟩
  · intro x err hOpen
    have h2 : (driver.aferoFS.Open path w.fs).1.2 = some err := by rw [hOpen]
    simp [AferoDriver.GetFile, h2]
  · intro h s1 x err hOpen hStat
    simp [AferoDriver.GetFile, hOpen, hStat, World.next, World.log]
  · intro h s1 info hOpen hStat
    simp [AferoDriver.GetFile, hOpen, hStat, World.next, World.log]

/-- C8, amended, at the sample store: `/a/b.txt` ("hello") from offset 1, a
missing file, a failing `Stat` on the handle, and a store that cannot seek. -/
theorem GetFile_from_offset_witness :
    ((sampleDriver.GetFile "/a/b.txt" 1 sampleWorld).1
        = Outcome.returned ((([104, 101, 108, 108, 111] : List Byte).length : Int), some 3, none) ∧
      memView.pending (sampleDriver.GetFile "/a/b.txt" 1 sampleWorld).2.fs 3
        = some (([104, 101, 108, 108, 111] : List Byte).drop (1 : Int).toNat) ∧
      ∃ b, ([104, 101, 108, 108, 111] : List Byte)[(1 : Int).toNat]? = some b ∧
        ([104, 101, 108, 108, 111] : List Byte).drop (1 : Int).toNat
          = b :: ([104, 101, 108, 108, 111] : List Byte).drop ((1 : Int).toNat + 1)) ∧
    (sampleDriver.GetFile "/nope" 1 sampleWorld).1
      = Outcome.returned (0, none, some ErrNotExist) ∧
    (sampleDriver.GetFile "/x.txt" 1 { fs := faultyFs, trace := [] }).1
      = Outcome.returned (0, none, some { Error := "input/output error", notExist := false }) ∧
    (unseekableDriver.GetFile "/a/b.txt" 1 sampleWorld).1
      = Outcome.returned
          ((nodeInfo "/a/b.txt" (Node.file [104, 101, 108, 108, 111])).Size, some 3, none) :=
  ⟨(GetFile_from_offset sampleDriver "/a/b.txt" 1 sampleWorld).1 memView
      [104, 101, 108, 108, 111] 3 (memFs.Open "/a/b.txt" sampleFs).2
      (memFs.FileSeek 3 1 os.SEEK_SET (memFs.Open "/a/b.txt" sampleFs).2).2
      (nodeInfo "/a/b.txt" (Node.file [104, 101, 108, 108, 111])) 1
      memFs_regular (by decide) rfl (by decide) rfl (by decide) (by decide),
    (GetFile_from_offset sampleDriver "/nope" 1 sampleWorld).2.1 none ErrNotExist (by decide),
    (GetFile_from_offset sampleDriver "/x.txt" 1 { fs := faultyFs, trace := [] }).2.2.1
      3 (memFs.Open "/x.txt" faultyFs).2 none
      { Error := "input/output error", notExist := false } rfl (by decide),
    (GetFile_from_offset unseekableDriver "/a/b.txt" 1 sampleWorld).2.2.2
      3 (memFs.Open "/a/b.txt" sampleFs).2
      (nodeInfo "/a/b.txt" (Node.file [104, 101, 108, 108, 111])) rfl (by decide)⟩

/-! ## Where the adapter departs from its error and cleanup discipline -/

/-- Whatever the backend, a listing that fails with an error and no entries makes
`ListDir` return nil without calling the visitor. -/
theorem ListDir_ignores_listing_error {σ τ : Type} (driver : AferoDriver σ) (path : String)
    (callback : τ → FileInfo → Option GoError × τ) (c : τ) (w : World σ) (e : GoError)
    (hList : driver.aferoFS.ReadDir w.fs path = ([], some e)) :
    driver.ListDir path callback c w = (none, c, w.log (Call.ReadDir path)) := by
  simp [AferoDriver.ListDir, hList, AferoDriver.ListDir.loop]

/-- C9 does not hold for `ListDir`: in the sample store the listing of the missing
directory `/nope` fails with "file does not exist", yet `ListDir` returns nil (and
never calls the visitor). -/
theorem ListDir_drops_listing_error :
    sampleDriver.aferoFS.ReadDir sampleWorld.fs "/nope" = ([], some ErrNotExist) ∧
    (sampleDriver.ListDir "/nope" (failAt 7) 0 sampleWorld).1 = none ∧
    (sampleDriver.ListDir "/nope" (failAt 7) 0 sampleWorld).2.2.trace
      = [Call.ReadDir "/nope"] := by
  decide

/-- Whatever the backend, when `Open` hands out a handle and the `Stat` on it
fails, `GetFile` returns the error after two calls, neither of them a `Close`. -/
theorem GetFile_stat_error_trace {σ : Type} (driver : AferoDriver σ) (path : String)
    (offset : Int) (s : σ) (h : Handle) (s1 : σ) (x : Option OsFileInfo) (e : GoError)
    (hOpen : driver.aferoFS.Open path s = ((some h, none), s1))
    (hStat : driver.aferoFS.FileStat s1 h = (x, some e)) :
    (driver.GetFile path offset { fs := s, trace := [] }).1
      = Outcome.returned (0, none, some e) ∧
    (driver.GetFile path offset { fs := s, trace := [] }).2.trace
      = [Call.Open path (some h), Call.FileStat h] ∧
    unclosed (driver.GetFile path offset { fs := s, trace := [] }).2.trace = [h] := by
  simp [AferoDriver.GetFile, hOpen, hStat, World.next, World.log, obtained, unclosed,
    Call.obtains]

/-- C10 does not hold for `GetFile`: on the sample store with a failing device,
`Open` of `/x.txt` hands out handle 3, the `Stat` on it fails, and `GetFile`
returns that error with no stream while handle 3 was never closed and is still
open in the backend. -/
theorem GetFile_leaves_handle_open :
    (sampleDriver.aferoFS.Open "/x.txt" faultyFs).1 = (some 3, none) ∧
    (sampleDriver.GetFile "/x.txt" 0 { fs := faultyFs, trace := [] }).1
      = Outcome.returned (0, none, some { Error := "input/output error", notExist := false }) ∧
    (sampleDriver.GetFile "/x.txt" 0 { fs := faultyFs, trace := [] }).2.trace
      = [Call.Open "/x.txt" (some 3), Call.FileStat 3] ∧
    unclosed (sampleDriver.GetFile "/x.txt" 0 { fs := faultyFs, trace := [] }).2.trace = [3] ∧
    memView.cursor (sampleDriver.GetFile "/x.txt" 0 { fs := faultyFs, trace := [] }).2.fs 3
      = some ("/x.txt", 0) := by
  decide

end aferodriver
